import Mathlib

/-!
Verification development for the data-transformation core of the
nr1-kentik-network-monitoring visualizations (a geographic map and a Sankey
flow diagram).  The JavaScript source is shallowly embedded: JS numbers are
modelled as rationals (reals only in the statistical scaler, which uses
Math.sqrt), JS objects with string keys as insertion-ordered association
lists, possibly-undefined strings as `Option String`, and code that can throw
a TypeError as `Except JsError`.
-/

/-! ### JavaScript semantics helpers -/

/-- The only JS exception the embedded code can raise (a TypeError from a
property access or method call on `undefined`). -/
inductive JsError
| typeError
deriving DecidableEq

/-- JS template-literal interpolation of a possibly-undefined string:
an undefined value renders as the string "undefined". -/
def jsTemplate : Option String → String
  | none => "undefined"
  | some s => s

/-- JS `v || d` on a possibly-undefined string `v`: falsy values
(undefined and the empty string) are replaced by the default `d`. -/
def jsOrDefault (v : Option String) (d : String) : String :=
  match v with
  | none => d
  | some s => if s = "" then d else s

/-- JS truthiness of a possibly-undefined string, keeping the value when
truthy: undefined and "" are falsy. -/
def truthyStr : Option String → Option String
  | none => none
  | some s => if s = "" then none else some s

/-- JS `String.prototype.toLowerCase`, applied character by character. -/
def jsToLowerCase (s : String) : String :=
  String.mk (s.data.map Char.toLower)

/-- Characters of a string up to (excluding) the first occurrence of the
two-character separator `||`. -/
def takeUntilSep : List Char → List Char
  | '|' :: '|' :: _ => []
  | c :: rest => c :: takeUntilSep rest
  | [] => []

/-- JS `s.split('||')[0]`: the prefix of `s` before the first `||`
(the whole string when no separator occurs). -/
def jsSplitHead (s : String) : String :=
  String.mk (takeUntilSep s.data)

/-- Property read `m[k]` on a JS object modelled as an insertion-ordered
association list. -/
def getKey {α : Type} : List (String × α) → String → Option α
  | [], _ => none
  | (k', v) :: rest, k => if k' = k then some v else getKey rest k

/-- Property write `m[k] = v` on a JS object: an existing key is updated in
place, a new key is appended (JS string-keyed insertion order). -/
def setKey {α : Type} : List (String × α) → String → α → List (String × α)
  | [], k, v => [(k, v)]
  | (k', v') :: rest, k, v =>
      if k' = k then (k', v) :: rest else (k', v') :: setKey rest k v

/-- JS `Set.prototype.add` on a set of strings (insertion-ordered). -/
def addSet (l : List String) (x : String) : List String :=
  if x ∈ l then l else l ++ [x]

/-! ### src/visualizations/kentik-map/getMapData.js

The bundled static datasets (`countryData.js`, `countryBounds.json`) are not
part of the transformation source; both tables are therefore parameters of
the embedded lookup.  A stored country record carries an opaque GeoJSON
feature payload and, possibly, an already-attached `bounds` field. -/

/-- A lon/lat bounding box `{minLon, minLat, maxLon, maxLat}`. -/
structure Bound where
  minLon : ℚ
  minLat : ℚ
  maxLon : ℚ
  maxLat : ℚ
deriving DecidableEq

/-- A country map-data record.  `⟨none, none⟩` is the empty record `{}`;
a record of the static table has a feature payload and maybe a bounds. -/
structure GeoData where
  feature : Option String := none
  bounds : Option Bound := none
deriving DecidableEq

/-- Model of `getCountryMapData` on a string argument (the `countryCode.toLowerCase()`
call cannot throw).  Mirrors:
`const code = countryCode.toLowerCase(); let data = {};
if (countryCode && countryData[code]) { data = countryData[code];
data.bounds = countryBounds[code]; } return data;`
The JS assignment `data.bounds = ...` mutates the record stored in the
shared `countryData` table (`data` is an alias of `countryData[code]`), so
the embedding returns the updated table next to the result. -/
def getCountryMapDataStr (countryData : List (String × GeoData))
    (countryBounds : List (String × Bound)) (countryCode : String) :
    List (String × GeoData) × GeoData :=
  let code := jsToLowerCase countryCode
  if countryCode = "" then (countryData, {})
  else
    match getKey countryData code with
    | some record =>
        let data : GeoData := { record with bounds := getKey countryBounds code }
        (setKey countryData code data, data)
    | none => (countryData, {})

/-- Model of `getCountryMapData` on a possibly-undefined argument: for `undefined`
(or `null`) the very first statement `countryCode.toLowerCase()` throws a
TypeError, before the falsy guard `if (countryCode && ...)` is reached. -/
def getCountryMapData (countryData : List (String × GeoData))
    (countryBounds : List (String × Bound)) :
    Option String → Except JsError (List (String × GeoData) × GeoData)
  | none => .error .typeError
  | some s => .ok (getCountryMapDataStr countryData countryBounds s)

/-! ### KentikMapVisualization (src/unnamed/part_000)

`transformData`, the per-instance aggregate index `dataMap`,
`getDataForCountry` and `getMapBounds`. -/

/-- One entry of `metadata.groups` of a query-result row. -/
structure FacetGroup where
  gtype : String
  name : String
  value : Option String
deriving DecidableEq

/-- One `{x, y}` sample of a query-result row. -/
structure Sample where
  x : ℚ
  y : ℚ
deriving DecidableEq

/-- A query-result row: `metadata.groups` plus the `data` samples. -/
structure QRow where
  groups : List FacetGroup
  data : List Sample
deriving DecidableEq

/-- A `dataMap` entry: `{...item, index, sum}` (the spread row, the row's
position in the batch, and the summed `data[].y`). -/
structure Aggregate where
  row : QRow
  index : ℕ
  sum : ℚ
deriving DecidableEq

/-- The mutable state of a `KentikMapVisualization` instance: the shared
static `countryData` table (mutated by `getCountryMapData`, see above) and
the instance field `dataMap` (initialised once to `{}` when the instance is
created, and never reset by `transformData`). -/
structure MapState where
  countryData : List (String × GeoData)
  dataMap : List (String × Aggregate)
deriving DecidableEq

/-- Model of `item.metadata.groups.find(item => item.type === 'facet' &&
item.name === 'country')?.value`. -/
def countryOfRow (row : QRow) : Option String :=
  (row.groups.find? (fun g => g.gtype == "facet" && g.name == "country")).bind
    FacetGroup.value

/-- The loop body of `transformData` (`data.map((item, index) => ...)`),
threading the instance state and the running index.  For a truthy country
facet value the row's geometry is resolved via `getCountryMapData` and the
aggregate is written into `dataMap[country]`; otherwise the row contributes
the empty record `{}` and no aggregate entry. -/
def transformDataGo (countryBounds : List (String × Bound)) (st : MapState)
    (idx : ℕ) : List QRow → MapState × List GeoData
  | [] => (st, [])
  | row :: rest =>
    match truthyStr (countryOfRow row) with
    | some s =>
        let lookup := getCountryMapDataStr st.countryData countryBounds s
        let sum := row.data.foldl (fun acc d => acc + d.y) 0
        let st' : MapState :=
          { countryData := lookup.1,
            dataMap := setKey st.dataMap s ⟨row, idx, sum⟩ }
        let restResult := transformDataGo countryBounds st' (idx + 1) rest
        (restResult.1, lookup.2 :: restResult.2)
    | none =>
        let restResult := transformDataGo countryBounds st (idx + 1) rest
        (restResult.1, ({} : GeoData) :: restResult.2)

/-- Model of `transformData = data => data.map((item, index) => ...)`. -/
def transformData (countryBounds : List (String × Bound)) (st : MapState)
    (rows : List QRow) : MapState × List GeoData :=
  transformDataGo countryBounds st 0 rows

/-- Model of `getDataForCountry = country => this.dataMap[country] || an-empty-record`;
`none` models the empty record `{}`. -/
def getDataForCountry (st : MapState) (country : String) : Option Aggregate :=
  getKey st.dataMap country

/-- One step of the `bounds.forEach` fold of `getMapBounds`: element-wise
min of the mins and max of the maxes.  (The JS loop seeds the four
accumulators with `undefined` and the first iteration installs the first
bound's fields, which is exactly a fold started from the first bound.) -/
def foldB (acc b : Bound) : Bound :=
  { minLon := min acc.minLon b.minLon
    minLat := min acc.minLat b.minLat
    maxLon := max acc.maxLon b.maxLon
    maxLat := max acc.maxLat b.maxLat }

/-- Model of `getMapBounds`: filter the features that carry a bound
(`data.filter(item => !!item.bounds).map(item => item.bounds)`), return
`undefined` if none remain, fold min/max, apply the single-point
degenerate-case correction, and return the enclosing bound (the
`LatLngBounds` corner pair is modelled as the `Bound` itself). -/
def getMapBounds (data : List GeoData) : Option Bound :=
  let bounds := data.filterMap GeoData.bounds
  match bounds with
  | [] => none
  | b0 :: rest =>
    let folded := rest.foldl foldB b0
    if folded.maxLat = folded.minLat ∧ folded.maxLon = folded.minLon then
      some { minLon := folded.minLon - 1, minLat := folded.minLat - 1,
             maxLon := folded.maxLon + 1, maxLat := folded.maxLat + 1 }
    else
      some folded

/-- Predicate stating `r` encloses `b`: each min of `r` is at most the corresponding min of
`b` and each max of `r` is at least the corresponding max of `b`. -/
def encloses (r b : Bound) : Prop :=
  r.minLon ≤ b.minLon ∧ r.minLat ≤ b.minLat ∧ b.maxLon ≤ r.maxLon ∧ b.maxLat ≤ r.maxLat

instance (r b : Bound) : Decidable (encloses r b) := by
  unfold encloses
  infer_instance

/-! ### src/.../greekPrefixing.js (magnitude scaler)

`Math.sqrt` forces the model into the reals, so the definitions of this
section are noncomputable; every claim about them is settled by evaluating
concrete closed instances with `norm_num`/`simp`. -/

/-- Model of `calculateStdDeviation(data)`: filter out `undefined`, average, mean of
squared differences, square root.  Returns `{avg, stdDev}`. -/
noncomputable def calculateStdDeviation (data : List (Option ℝ)) : ℝ × ℝ :=
  let filteredData := data.filterMap id
  let avg := filteredData.foldl (fun sum row => sum + row) 0 / (filteredData.length : ℝ)
  let diffs := filteredData.map (fun row => (row - avg) ^ 2)
  let stdDev := Real.sqrt (diffs.foldl (fun sum val => sum + val) 0 / (diffs.length : ℝ))
  (avg, stdDev)

/-- Model of `nStdDeviations(data, n = 2) = avg + stdDev * n`. -/
noncomputable def nStdDeviations (data : List (Option ℝ)) (n : ℝ) : ℝ :=
  (calculateStdDeviation data).1 + (calculateStdDeviation data).2 * n

/-- The `PREFIXES` table, in source order (descending magnitude). -/
noncomputable def PREFIXES : List (String × ℝ) :=
  [("P", 10 ^ 15), ("T", 10 ^ 12), ("G", 10 ^ 9), ("M", 10 ^ 6), ("K", 10 ^ 3)]

open Classical in
/-- Model of `PREFIXES.find(pf => twoStdDeviations / pf.magnitude > scaleMax)`:
first entry (largest magnitude first) passing the strict threshold. -/
noncomputable def findPrefix (twoStdDeviations scaleMax : ℝ) :
    List (String × ℝ) → Option (String × ℝ)
  | [] => none
  | pf :: rest =>
      if twoStdDeviations / pf.2 > scaleMax then some pf
      else findPrefix twoStdDeviations scaleMax rest

/-- Model of `greekPrefix(data, scaleMax = 5)`: the symbol of the first prefix whose
magnitude still divides the two-standard-deviations upper estimate to a
value exceeding `scaleMax`, else `''`.  The `Option` argument models the JS
default parameter (`undefined` selects 5). -/
noncomputable def greekPrefix (data : List (Option ℝ)) (scaleMaxArg : Option ℝ) : String :=
  let scaleMax := scaleMaxArg.getD 5
  let twoStdDeviations := nStdDeviations data 2
  match findPrefix twoStdDeviations scaleMax PREFIXES with
  | some pf => pf.1
  | none => ""

/-- Model of `adjustByGreekPrefix(value, prefix)`: divide by the magnitude of the
matched prefix symbol, or return the value unchanged. -/
noncomputable def adjustByGreekPrefix (value : ℝ) (pfx : String) : ℝ :=
  match PREFIXES.find? (fun pf => pf.1 == pfx) with
  | some pf => value / pf.2
  | none => value

/-- JS `x.toFixed()`: round to the nearest integer, ties picking the larger
integer (ECMA: the `n` with `n - x` closest to zero, ties the larger `n`). -/
noncomputable def jsToFixed (r : ℝ) : String :=
  toString ⌊r + 1 / 2⌋

/-- The argument of `formatBytesGreek`: a single number or an array of
numbers (`Array.isArray` dispatch). -/
inductive JsVal
| num (r : ℝ)
| arr (l : List ℝ)

/-- Model of `formatBytesGreek(value, suffix = 'B', scaleMax)`: choose the prefix
from the value (wrapped in a one-element array when scalar), total the
values (`parseFloat` on numbers is the identity), scale, round and append
`prefix + suffix`. -/
noncomputable def formatBytesGreek (value : JsVal) (suffix : String)
    (scaleMax : Option ℝ) : String :=
  let dataList : List ℝ := match value with
    | .arr l => l
    | .num r => [r]
  let pfx := greekPrefix (dataList.map some) scaleMax
  let total : ℝ := match value with
    | .arr l => l.foldl (fun sum row => sum + row) 0
    | .num r => r
  jsToFixed ( adjustByGreekPrefix total pfx) ++ " " ++ pfx ++ suffix

/-! ### SankeyVisualization (src/unnamed/part_001)

`transformFacetData` and `transformEventData`. -/

/-- A Sankey node `{id, name}`. -/
structure FNode where
  id : String
  name : String
deriving DecidableEq

/-- A Sankey link `{source, target, value}` (source/target are node ids). -/
structure FLink where
  source : String
  target : String
  value : ℚ
deriving DecidableEq

/-- Model of `item.metadata.groups.filter(group => group.type === 'facet')`. -/
def facetsOf (row : QRow) : List FacetGroup :=
  row.groups.filter (fun g => g.gtype == "facet")

/-- Facet-mode node identity: `` `${facet.value}||${facet.name}` ``. -/
def facetKey (g : FacetGroup) : String :=
  jsTemplate g.value ++ "||" ++ g.name

/-- The `rawData.forEach` loop of `transformFacetData`, accumulating the
node identity set (JS `Set`, insertion-ordered) and the pushed links.
Accessing `facets[0]`/`facets[1]`/`item.data[0]` on a row with fewer than
two facet groups or no sample throws a TypeError. -/
def facetGo : List QRow → List String → List FLink →
    Except JsError (List String × List FLink)
  | [], nodes, links => .ok (nodes, links)
  | row :: rest, nodes, links =>
    match (facetsOf row)[0]?, (facetsOf row)[1]?, row.data[0]? with
    | some f0, some f1, some d0 =>
        facetGo rest (addSet (addSet nodes (facetKey f0)) (facetKey f1))
          (links ++ [{ source := facetKey f0, target := facetKey f1, value := d0.y }])
    | _, _, _ => .error .typeError

/-- Model of `transformFacetData`: run the loop from empty accumulators, then map
each node identity to `{id: node, name: node.split('||')[0]}`. -/
def transformFacetData (rawData : List QRow) :
    Except JsError (List FNode × List FLink) :=
  (facetGo rawData [] []).map
    (fun p => (p.1.map (fun node => { id := node, name := jsSplitHead node }), p.2))

/-- One raw event sample of the event-mode query: the values of the two
configured dimension fields (possibly absent) and the numeric
`in_bytes`/`sample_rate` fields. -/
structure EventRow where
  left : Option String
  right : Option String
  in_bytes : ℚ
  sample_rate : ℚ
deriving DecidableEq

/-- Event-mode left node identity `` `${item[dimensionLeft]}-left` ``. -/
def leftKeyOf (v : Option String) : String :=
  jsTemplate v ++ "-left"

/-- Event-mode right node identity `` `${item[dimensionRight]}-right` ``. -/
def rightKeyOf (v : Option String) : String :=
  jsTemplate v ++ "-right"

/-- Event-mode link key `` `${item[dimensionLeft]}-${item[dimensionRight]}` ``. -/
def linkKeyOf (item : EventRow) : String :=
  jsTemplate item.left ++ "-" ++ jsTemplate item.right

/-- The `rawData[0].data.forEach` loop of `transformEventData`: nodes and
links live in JS objects keyed by the identity strings; a node is inserted
only when its key is absent (`nodes[k] = nodes[k] || {...}`), a link is
created on first sight of its key and then accumulates
`value += item.in_bytes * item.sample_rate`. -/
def eventGo : List EventRow → List (String × FNode) → List (String × FLink) →
    List (String × FNode) × List (String × FLink)
  | [], nodes, links => (nodes, links)
  | item :: rest, nodes, links =>
    let leftKey := leftKeyOf item.left
    let rightKey := rightKeyOf item.right
    let linkKey := linkKeyOf item
    let nodes1 := match getKey nodes leftKey with
      | some _ => nodes
      | none => setKey nodes leftKey { id := leftKey, name := jsOrDefault item.left "--" }
    let nodes2 := match getKey nodes1 rightKey with
      | some _ => nodes1
      | none => setKey nodes1 rightKey { id := rightKey, name := jsOrDefault item.right "--" }
    let cur := match getKey links linkKey with
      | some l => l
      | none => { source := leftKey, target := rightKey, value := 0 }
    let links1 := setKey links linkKey
      { source := cur.source, target := cur.target,
        value := cur.value + item.in_bytes * item.sample_rate }
    eventGo rest nodes2 links1

/-- Model of `transformEventData` applied to the event samples `rawData[0].data`:
run the loop and return `Object.values` of both objects. -/
def transformEventItems (items : List EventRow) : List FNode × List FLink :=
  let result := eventGo items [] []
  (result.1.map Prod.snd, result.2.map Prod.snd)

/-- One result series of the event-mode query; only its `data` field is
used (`rawData[0].data`). -/
structure EventSeries where
  data : List EventRow
deriving DecidableEq

/-- Model of `transformEventData(rawData)`: reads `rawData[0].data`, throwing a
TypeError when the batch is empty (`rawData[0]` is `undefined`). -/
def transformEventData (rawData : List EventSeries) :
    Except JsError (List FNode × List FLink) :=
  match rawData with
  | [] => .error .typeError
  | s :: _ => .ok (transformEventItems s.data)

/-! ### Concrete sample data used by closed instances of the claims -/

/-- A one-country instance of the static `countryData` table, pristine:
the stored record has no `bounds` field yet. -/
def sampleCountryData : List (String × GeoData) :=
  [("us", { feature := some "us-feature" })]

/-- The matching instance of the static `countryBounds` table. -/
def sampleCountryBounds : List (String × Bound) :=
  [("us", ⟨1, 2, 3, 4⟩)]

/-- A query row faceted on country "us" with a single sample. -/
def rowUS : QRow :=
  { groups := [{ gtype := "facet", name := "country", value := some "us" }],
    data := [{ x := 0, y := 10 }] }

/-- A query row faceted on country "fr" with a single sample. -/
def rowFR : QRow :=
  { groups := [{ gtype := "facet", name := "country", value := some "fr" }],
    data := [{ x := 0, y := 20 }] }

/-- A fresh map-visualization instance state. -/
def mapState0 : MapState :=
  { countryData := sampleCountryData, dataMap := [] }

/-- The instance state after transforming the first batch `[rowUS]`. -/
def mapState1 : MapState :=
  (transformData sampleCountryBounds mapState0 [rowUS]).1

/-- The instance state after then transforming a second batch `[rowFR]`
that contains no row for country "us". -/
def mapState2 : MapState :=
  (transformData sampleCountryBounds mapState1 [rowFR]).1

/-- A facet-mode query row with facets `ip = "a"` and `country = "b"`. -/
def facetRowW : QRow :=
  { groups := [{ gtype := "facet", name := "ip", value := some "a" },
               { gtype := "facet", name := "country", value := some "b" }],
    data := [{ x := 0, y := 5 }] }

/-- Event row with `left = "a"`, `right = "b-c"`, value 10 · 1. -/
def evRow1 : EventRow :=
  { left := some "a", right := some "b-c", in_bytes := 10, sample_rate := 1 }

/-- Event row with `left = "a-b"`, `right = "c"`, value 7 · 1; its link key
collides with `evRow1`'s. -/
def evRow2 : EventRow :=
  { left := some "a-b", right := some "c", in_bytes := 7, sample_rate := 1 }

/-- Event row with `left = "a"`, `right = "b-c"`, value 3 · 2. -/
def evRowA : EventRow :=
  { left := some "a", right := some "b-c", in_bytes := 3, sample_rate := 2 }

/-- Event row with `left = "a-b"`, `right = "c"`, value 5 · 2; its link key
collides with `evRowA`'s. -/
def evRowB : EventRow :=
  { left := some "a-b", right := some "c", in_bytes := 5, sample_rate := 2 }

/-- Event rows sharing the `(left, right)` pair `("x", "y")`. -/
def evRowX1 : EventRow :=
  { left := some "x", right := some "y", in_bytes := 10, sample_rate := 2 }

/-- Second event row sharing the pair `("x", "y")`. -/
def evRowX2 : EventRow :=
  { left := some "x", right := some "y", in_bytes := 5, sample_rate := 3 }

/-- Event row whose left and right raw values are the same string. -/
def evRowW : EventRow :=
  { left := some "z", right := some "z", in_bytes := 1, sample_rate := 1 }

/-! ### Helper lemmas about the JS-object model -/

theorem getKey_setKey_self {α : Type} (m : List (String × α)) (k : String) (v : α) :
    getKey (setKey m k v) k = some v := by
  induction m with
  | nil => simp [getKey, setKey]
  | cons hd tl ih =>
    obtain ⟨k', v'⟩ := hd
    by_cases h : k' = k
    · simp [getKey, setKey, h]
    · simp [getKey, setKey, h, ih]

theorem getKey_setKey_ne {α : Type} (m : List (String × α)) (k k' : String) (v : α)
    (h : k' ≠ k) : getKey (setKey m k v) k' = getKey m k' := by
  induction m with
  | nil =>
    simp only [setKey, getKey]
    rw [if_neg (Ne.symm h)]
  | cons hd tl ih =>
    obtain ⟨k0, v0⟩ := hd
    by_cases h0 : k0 = k
    · subst h0
      simp only [setKey, if_pos rfl, getKey]
      rw [if_neg (Ne.symm h), if_neg (Ne.symm h)]
    · simp only [setKey, if_neg h0, getKey]
      by_cases h1 : k0 = k'
      · simp [h1]
      · simp [h1, ih]

theorem isSome_getKey_setKey {α : Type} (m : List (String × α)) (k k' : String) (v : α)
    (h : (getKey m k').isSome) : (getKey (setKey m k v) k').isSome := by
  by_cases hk : k' = k
  · subst hk; simp [getKey_setKey_self]
  · rw [getKey_setKey_ne m k k' v hk]; exact h

theorem getKey_some_mem {α : Type} (m : List (String × α)) (k : String) (v : α)
    (h : getKey m k = some v) : (k, v) ∈ m := by
  induction m with
  | nil => simp [getKey] at h
  | cons hd tl ih =>
    obtain ⟨k', v'⟩ := hd
    by_cases h0 : k' = k
    · subst h0
      simp [getKey] at h
      simp [h]
    · simp only [getKey, if_neg h0] at h
      exact List.mem_cons_of_mem _ (ih h)

theorem mem_addSet (l : List String) (x y : String) :
    y ∈ addSet l x ↔ y ∈ l ∨ y = x := by
  unfold addSet
  by_cases h : x ∈ l
  · simp only [if_pos h]
    constructor
    · exact Or.inl
    · rintro (hy | rfl)
      · exact hy
      · exact h
  · simp [if_neg h]

theorem nodup_addSet (l : List String) (x : String) (h : l.Nodup) :
    (addSet l x).Nodup := by
  unfold addSet
  by_cases hx : x ∈ l
  · simpa [if_pos hx]
  · simpa [if_neg hx, List.nodup_append] using ⟨h, fun hmem => hx hmem⟩

theorem mem_setKey {α : Type} (m : List (String × α)) (k : String) (v : α)
    (p : String × α) (h : p ∈ setKey m k v) : p ∈ m ∨ p.1 = k := by
  induction m with
  | nil =>
    simp only [setKey, List.mem_singleton] at h
    subst h
    exact Or.inr rfl
  | cons hd tl ih =>
    obtain ⟨k', v'⟩ := hd
    by_cases h0 : k' = k
    · simp only [setKey, if_pos h0, List.mem_cons] at h
      rcases h with h1 | h1
      · exact Or.inr (by rw [h1]; exact h0)
      · exact Or.inl (List.mem_cons_of_mem _ h1)
    · simp only [setKey, if_neg h0, List.mem_cons] at h
      rcases h with h1 | h1
      · exact Or.inl (by simp [h1])
      · rcases ih h1 with h2 | h2
        · exact Or.inl (List.mem_cons_of_mem _ h2)
        · exact Or.inr h2

theorem keys_nodup_setKey {α : Type} (m : List (String × α)) (k : String) (v : α)
    (h : (m.map Prod.fst).Nodup) : ((setKey m k v).map Prod.fst).Nodup := by
  induction m with
  | nil => simp [setKey]
  | cons hd tl ih =>
    obtain ⟨k', v'⟩ := hd
    by_cases h0 : k' = k
    · simpa [setKey, if_pos h0] using h
    · simp only [List.map_cons, List.nodup_cons] at h
      have hk' : k' ∉ (setKey tl k v).map Prod.fst := by
        intro hmem
        rcases List.mem_map.mp hmem with ⟨⟨k2, v2⟩, hmem2, hk2⟩
        rcases mem_setKey tl k v (k2, v2) hmem2 with h4 | h4
        · exact h.1 (List.mem_map.mpr ⟨(k2, v2), h4, hk2⟩)
        · exact h0 (hk2 ▸ h4)
      simp only [setKey, if_neg h0, List.map_cons, List.nodup_cons]
      exact ⟨hk', ih h.2⟩


/-- The min/max fold of `getMapBounds` produces a bound enclosing its seed
and every folded bound. -/
theorem encloses_foldB (bs : List Bound) : ∀ acc : Bound,
    encloses (bs.foldl foldB acc) acc ∧ ∀ b ∈ bs, encloses (bs.foldl foldB acc) b := by
  induction bs with
  | nil =>
    intro acc
    exact ⟨⟨le_refl _, le_refl _, le_refl _, le_refl _⟩, by simp⟩
  | cons b bs ih =>
    intro acc
    obtain ⟨h1, h2⟩ := ih (foldB acc b)
    have hstep : ∀ r : Bound, encloses r (foldB acc b) → encloses r acc ∧ encloses r b := by
      intro r hr
      obtain ⟨ha, hb, hc, hd⟩ := hr
      simp only [foldB] at ha hb hc hd
      exact ⟨⟨le_trans ha (min_le_left _ _), le_trans hb (min_le_left _ _),
              le_trans (le_max_left _ _) hc, le_trans (le_max_left _ _) hd⟩,
             ⟨le_trans ha (min_le_right _ _), le_trans hb (min_le_right _ _),
              le_trans (le_max_right _ _) hc, le_trans (le_max_right _ _) hd⟩⟩
    obtain ⟨hacc, hb'⟩ := hstep _ h1
    refine ⟨hacc, ?_⟩
    intro b' hb''
    rcases List.mem_cons.mp hb'' with rfl | hmem
    · exact hb'
    · exact h2 b' hmem

theorem append_left_ne_append_right (s t : String) : s ++ "-left" ≠ t ++ "-right" := by
  intro h
  have hd := congrArg String.data h
  rw [String.data_append, String.data_append] at hd
  have hrev := congrArg List.reverse hd
  rw [List.reverse_append, List.reverse_append,
    show ("-left" : String).data.reverse = ['t', 'f', 'e', 'l', '-'] from rfl,
    show ("-right" : String).data.reverse = ['t', 'h', 'g', 'i', 'r', '-'] from rfl] at hrev
  simp only [List.cons_append, List.nil_append] at hrev
  injection hrev with ha hrest
  injection hrest with hb
  exact absurd hb (by decide)

/-- Keys of `dataMap` not written by any row of the batch are untouched by
the `transformData` loop. -/
theorem transformDataGo_dataMap_frame (cb : List (String × Bound)) (rows : List QRow) :
    ∀ (st : MapState) (idx : ℕ) (c : String),
    (∀ row ∈ rows, truthyStr (countryOfRow row) ≠ some c) →
    getKey (transformDataGo cb st idx rows).1.dataMap c = getKey st.dataMap c := by
  induction rows with
  | nil => intro st idx c _; simp [transformDataGo]
  | cons row rest ih =>
    intro st idx c hc
    have hrow : truthyStr (countryOfRow row) ≠ some c := hc row (List.mem_cons_self _ _)
    have hrest : ∀ r ∈ rest, truthyStr (countryOfRow r) ≠ some c :=
      fun r hr => hc r (List.mem_cons_of_mem _ hr)
    cases hmatch : truthyStr (countryOfRow row) with
    | none =>
      simp only [transformDataGo, hmatch]
      exact ih _ _ _ hrest
    | some s =>
      have hs : s ≠ c := fun hsc => hrow (hsc ▸ hmatch)
      simp only [transformDataGo, hmatch]
      rw [ih _ _ _ hrest]
      exact getKey_setKey_ne _ _ _ _ (Ne.symm hs)

/-- The accumulated value stored in the links object under key `k`
(0 when the key is absent). -/
def linkBase (links : List (String × FLink)) (k : String) : ℚ :=
  match getKey links k with
  | some l => l.value
  | none => 0

theorem linkBase_setKey_self (ls : List (String × FLink)) (k : String) (v : FLink) :
    linkBase (setKey ls k v) k = v.value := by
  rw [linkBase, getKey_setKey_self]

theorem linkBase_setKey_ne (ls : List (String × FLink)) (k k' : String) (v : FLink)
    (h : k' ≠ k) : linkBase (setKey ls k v) k' = linkBase ls k' := by
  rw [linkBase, getKey_setKey_ne _ _ _ _ h, linkBase]

theorem eventGo_value (items : List EventRow) :
    ∀ (nodes : List (String × FNode)) (links : List (String × FLink)) (k : String),
    linkBase (eventGo items nodes links).2 k =
      linkBase links k +
        ((items.filter (fun r => linkKeyOf r == k)).map
          (fun r => r.in_bytes * r.sample_rate)).sum := by
  induction items with
  | nil => intro nodes links k; simp [eventGo]
  | cons item rest ih =>
    intro nodes links k
    simp only [eventGo]
    rw [ih]
    by_cases hk : linkKeyOf item = k
    · subst hk
      rw [linkBase_setKey_self]
      dsimp only
      cases hg : getKey links (linkKeyOf item) with
      | none => simp [linkBase, hg, List.filter_cons]
      | some l => simp [linkBase, hg, List.filter_cons]; ring
    · rw [linkBase_setKey_ne _ _ _ _ (Ne.symm hk)]
      have hne : (linkKeyOf item == k) = false := beq_eq_false_iff_ne.mpr hk
      simp [List.filter_cons, hne]

/-- A link key present in the accumulator stays present. -/
theorem eventGo_links_mono (items : List EventRow) :
    ∀ (nodes : List (String × FNode)) (links : List (String × FLink)) (k : String),
    (getKey links k).isSome → (getKey (eventGo items nodes links).2 k).isSome := by
  induction items with
  | nil => intro nodes links k h; simpa [eventGo] using h
  | cons item rest ih =>
    intro nodes links k h
    simp only [eventGo]
    exact ih _ _ _ (isSome_getKey_setKey _ _ _ _ h)

theorem eventGo_links_present (items : List EventRow) :
    ∀ (nodes : List (String × FNode)) (links : List (String × FLink)),
    ∀ r ∈ items, (getKey (eventGo items nodes links).2 (linkKeyOf r)).isSome := by
  induction items with
  | nil => intro nodes links r hr; simp at hr
  | cons item rest ih =>
    intro nodes links r hr
    rcases List.mem_cons.mp hr with rfl | hmem
    · simp only [eventGo]
      exact eventGo_links_mono rest _ _ _ (by rw [getKey_setKey_self]; rfl)
    · simp only [eventGo]
      exact ih _ _ r hmem

theorem eventGo_links_nodup (items : List EventRow) :
    ∀ (nodes : List (String × FNode)) (links : List (String × FLink)),
    ((links.map Prod.fst).Nodup) → (((eventGo items nodes links).2.map Prod.fst).Nodup) := by
  induction items with
  | nil => intro nodes links h; simpa [eventGo] using h
  | cons item rest ih =>
    intro nodes links h
    simp only [eventGo]
    exact ih _ _ (keys_nodup_setKey _ _ _ h)

/-- A key read back from `setKey` is either an old binding or the new one. -/
theorem getKey_setKey_inv {α : Type} (m : List (String × α)) (k0 k : String) (v0 v : α)
    (h : getKey (setKey m k0 v0) k = some v) : getKey m k = some v ∨ (k = k0 ∧ v = v0) := by
  by_cases hk : k = k0
  · subst hk
    rw [getKey_setKey_self] at h
    exact Or.inr ⟨rfl, (Option.some_inj.mp h).symm⟩
  · rw [getKey_setKey_ne _ _ _ _ hk] at h
    exact Or.inl h

theorem eventGo_nodes_mono (items : List EventRow) :
    ∀ (nodes : List (String × FNode)) (links : List (String × FLink)) (k : String),
    (getKey nodes k).isSome → (getKey (eventGo items nodes links).1 k).isSome := by
  induction items with
  | nil => intro nodes links k h; simpa [eventGo] using h
  | cons item rest ih =>
    intro nodes links k h
    simp only [eventGo]
    cases hL : getKey nodes (leftKeyOf item.left) with
    | some nl =>
      cases hR : getKey nodes (rightKeyOf item.right) with
      | some nr => exact ih _ _ _ h
      | none => exact ih _ _ _ (isSome_getKey_setKey _ _ _ _ h)
    | none =>
      cases hR : getKey (setKey nodes (leftKeyOf item.left)
          { id := leftKeyOf item.left, name := jsOrDefault item.left "--" })
          (rightKeyOf item.right) with
      | some nr => exact ih _ _ _ (isSome_getKey_setKey _ _ _ _ h)
      | none => exact ih _ _ _ (isSome_getKey_setKey _ _ _ _ (isSome_getKey_setKey _ _ _ _ h))

theorem eventGo_nodes_id (items : List EventRow) :
    ∀ (nodes : List (String × FNode)) (links : List (String × FLink)),
    (∀ k v, getKey nodes k = some v → v.id = k) →
    ∀ k v, getKey (eventGo items nodes links).1 k = some v → v.id = k := by
  induction items with
  | nil =>
    intro nodes links hinv k v h
    simp only [eventGo] at h
    exact hinv k v h
  | cons item rest ih =>
    intro nodes links hinv k v h
    have hstep : ∀ (m : List (String × FNode)) (k0 : String) (nm : String),
        (∀ k' v', getKey m k' = some v' → v'.id = k') →
        ∀ k' v', getKey (setKey m k0 { id := k0, name := nm }) k' = some v' → v'.id = k' := by
      intro m k0 nm hm k' v' h'
      rcases getKey_setKey_inv m k0 k' { id := k0, name := nm } v' h' with h2 | ⟨h2, h3⟩
      · exact hm k' v' h2
      · rw [h3, h2]
    simp only [eventGo] at h
    cases hL : getKey nodes (leftKeyOf item.left) with
    | some nl =>
      rw [hL] at h
      cases hR : getKey nodes (rightKeyOf item.right) with
      | some nr => rw [hR] at h; exact ih _ _ hinv k v h
      | none => rw [hR] at h; exact ih _ _ (hstep nodes _ _ hinv) k v h
    | none =>
      rw [hL] at h
      cases hR : getKey (setKey nodes (leftKeyOf item.left)
          { id := leftKeyOf item.left, name := jsOrDefault item.left "--" })
          (rightKeyOf item.right) with
      | some nr => rw [hR] at h; exact ih _ _ (hstep nodes _ _ hinv) k v h
      | none => rw [hR] at h; exact ih _ _ (hstep _ _ _ (hstep nodes _ _ hinv)) k v h

theorem eventGo_nodes_present (items : List EventRow) :
    ∀ (nodes : List (String × FNode)) (links : List (String × FLink)),
    ∀ r ∈ items, (getKey (eventGo items nodes links).1 (leftKeyOf r.left)).isSome
      ∧ (getKey (eventGo items nodes links).1 (rightKeyOf r.right)).isSome := by
  induction items with
  | nil => intro nodes links r hr; simp at hr
  | cons item rest ih =>
    intro nodes links r hr
    rcases List.mem_cons.mp hr with rfl | hmem
    · simp only [eventGo]
      cases hL : getKey nodes (leftKeyOf r.left) with
      | some nl =>
        cases hR : getKey nodes (rightKeyOf r.right) with
        | some nr =>
          exact ⟨eventGo_nodes_mono rest _ _ _ (by rw [hL]; rfl),
                 eventGo_nodes_mono rest _ _ _ (by rw [hR]; rfl)⟩
        | none =>
          exact ⟨eventGo_nodes_mono rest _ _ _
                   (isSome_getKey_setKey _ _ _ _ (by rw [hL]; rfl)),
                 eventGo_nodes_mono rest _ _ _ (by rw [getKey_setKey_self]; rfl)⟩
      | none =>
        cases hR : getKey (setKey nodes (leftKeyOf r.left)
            { id := leftKeyOf r.left, name := jsOrDefault r.left "--" })
            (rightKeyOf r.right) with
        | some nr =>
          exact ⟨eventGo_nodes_mono rest _ _ _ (by rw [getKey_setKey_self]; rfl),
                 eventGo_nodes_mono rest _ _ _ (by rw [hR]; rfl)⟩
        | none =>
          exact ⟨eventGo_nodes_mono rest _ _ _
                   (isSome_getKey_setKey _ _ _ _ (by rw [getKey_setKey_self]; rfl)),
                 eventGo_nodes_mono rest _ _ _ (by rw [getKey_setKey_self]; rfl)⟩
    · simp only [eventGo]
      cases hL : getKey nodes (leftKeyOf item.left) with
      | some nl =>
        cases hR : getKey nodes (rightKeyOf item.right) with
        | some nr => exact ih _ _ r hmem
        | none => exact ih _ _ r hmem
      | none =>
        cases hR : getKey (setKey nodes (leftKeyOf item.left)
            { id := leftKeyOf item.left, name := jsOrDefault item.left "--" })
            (rightKeyOf item.right) with
        | some nr => exact ih _ _ r hmem
        | none => exact ih _ _ r hmem

/-- Complete specification of a successful run of the facet-mode loop:
one pushed link per row in order, set-semantics for the node identities. -/
theorem facetGo_ok_spec (rows : List QRow) :
    ∀ (nodes : List String) (links : List FLink) (N : List String) (L : List FLink),
    facetGo rows nodes links = .ok (N, L) →
    L.length = links.length + rows.length
    ∧ (∀ i, i < links.length → L[i]? = links[i]?)
    ∧ (∀ i r, rows[i]? = some r → ∃ f0 f1 d0,
        (facetsOf r)[0]? = some f0 ∧ (facetsOf r)[1]? = some f1 ∧ r.data[0]? = some d0 ∧
        L[links.length + i]? = some { source := facetKey f0, target := facetKey f1, value := d0.y })
    ∧ (nodes.Nodup → N.Nodup)
    ∧ (∀ x ∈ nodes, x ∈ N)
    ∧ (∀ r ∈ rows, ∀ f, ((facetsOf r)[0]? = some f ∨ (facetsOf r)[1]? = some f) →
        facetKey f ∈ N) := by
  induction rows with
  | nil =>
    intro nodes links N L h
    simp only [facetGo, Except.ok.injEq, Prod.mk.injEq] at h
    obtain ⟨hN, hL⟩ := h
    subst hN; subst hL
    refine ⟨by simp, fun i _ => rfl, by simp, id, fun x hx => hx, by simp⟩
  | cons row rest ih =>
    intro nodes links N L h
    simp only [facetGo] at h
    split at h
    case _ f0 f1 d0 hf0 hf1 hd0 =>
      set nl : FLink := { source := facetKey f0, target := facetKey f1, value := d0.y } with hnl
      obtain ⟨hlen, hpre, hidx, hnodup, hmem, hfacet⟩ := ih _ _ _ _ h
      have hlinklen : (links ++ [nl]).length = links.length + 1 := by simp
      refine ⟨?_, ?_, ?_, ?_, ?_, ?_⟩
      · rw [hlen, hlinklen]
        simp [Nat.add_assoc, Nat.add_comm 1]
      · intro i hi
        rw [hpre i (by rw [hlinklen]; omega)]
        exact List.getElem?_append_left hi
      · intro i r hir
        match i, hir with
        | 0, hir =>
          have hr : row = r := by simpa using hir
          subst hr
          refine ⟨f0, f1, d0, hf0, hf1, hd0, ?_⟩
          rw [Nat.add_zero]
          rw [hpre links.length (by rw [hlinklen]; omega)]
          exact List.getElem?_concat_length _ _
        | i' + 1, hir =>
          have hir' : rest[i']? = some r := by simpa using hir
          obtain ⟨g0, g1, e0, hg0, hg1, he0, hL⟩ := hidx i' r hir'
          refine ⟨g0, g1, e0, hg0, hg1, he0, ?_⟩
          rw [show links.length + (i' + 1) = (links ++ [nl]).length + i' by
              rw [hlinklen]; omega]
          exact hL
      · intro hnd
        exact hnodup (nodup_addSet _ _ (nodup_addSet _ _ hnd))
      · intro x hx
        exact hmem x ((mem_addSet _ _ _).mpr (Or.inl ((mem_addSet _ _ _).mpr (Or.inl hx))))
      · intro r hr f hf
        rcases List.mem_cons.mp hr with rfl | hr'
        · rcases hf with hf | hf
          · have hff : f = f0 := by rw [hf0] at hf; exact (Option.some_inj.mp hf).symm
            subst hff
            exact hmem _ ((mem_addSet _ _ _).mpr
              (Or.inl ((mem_addSet _ _ _).mpr (Or.inr rfl))))
          · have hff : f = f1 := by rw [hf1] at hf; exact (Option.some_inj.mp hf).symm
            subst hff
            exact hmem _ ((mem_addSet _ _ _).mpr (Or.inr rfl))
        · exact hfacet r hr' f hf
    case _ =>
      exact absurd h (by simp)

/-- Evaluation helpers for the magnitude scaler at the concrete input 1500000. -/
theorem calculateStdDeviation_single :
    calculateStdDeviation [some (1500000 : ℝ)] = (1500000, 0) := by
  simp [calculateStdDeviation]

theorem greekPrefix_1500000 (smArg : Option ℝ) (hsm : smArg.getD 5 = 5) :
    greekPrefix [some 1500000] smArg = "K" := by
  have hn : nStdDeviations [some 1500000] 2 = 1500000 := by
    rw [nStdDeviations, calculateStdDeviation_single]
    norm_num
  have hfp : findPrefix 1500000 5 PREFIXES = some ("K", 10 ^ 3) := by
    simp only [PREFIXES, findPrefix]
    rw [if_neg (by norm_num), if_neg (by norm_num), if_neg (by norm_num),
      if_neg (by norm_num), if_pos (by norm_num)]
  simp only [ greekPrefix, hsm, hn, hfp]

theorem adjust_1500000 : adjustByGreekPrefix 1500000 "K" = 1500 := by
  simp [ adjustByGreekPrefix, PREFIXES, List.find?]
  norm_num

theorem jsToFixed_1500 : jsToFixed 1500 = "1500" := by
  have h15 : (⌊(1500 : ℝ) + 1 / 2⌋ : ℤ) = 1500 := by norm_num
  rw [jsToFixed, h15]
  rfl

theorem fbg_eval : formatBytesGreek (JsVal.num 1500000) "B" none = "1500 KB" := by
  simp only [formatBytesGreek, List.map_cons, List.map_nil]
  rw [greekPrefix_1500000 none rfl, adjust_1500000, jsToFixed_1500]
  decide

/-! ### The claims -/

/-- C1 counterexample: the claim says the `countryCode -> CountryAggregate`
index is rebuilt fresh per `transform` call, so that after a second batch
without country "us" the lookup returns an empty record.  In the code
`dataMap` is an instance field that is never reset: after transforming
`[rowUS]` and then `[rowFR]` (no "us" row), `getDataForCountry "us"` still
returns the stale aggregate of the first batch, not the empty record. -/
theorem C1_counterexample :
    getDataForCountry mapState2 "us" = some { row := rowUS, index := 0, sum := 10 }
    ∧ some { row := rowUS, index := 0, sum := 10 } ≠ (none : Option Aggregate) := by
  constructor
  · norm_num [mapState2, mapState1, mapState0, transformData, transformDataGo, countryOfRow,
      truthyStr, rowUS, rowFR, getCountryMapDataStr, getDataForCountry, getKey, setKey,
      sampleCountryData, sampleCountryBounds, jsToLowerCase, List.find?]
  · simp

/-- C1 (amended): the aggregate index is merged, not rebuilt: `transform`
overwrites the entries of the countries present in the new batch, and every
entry whose country is absent from the new batch persists unchanged, so
`getAggregate` for such a country returns the prior batch's aggregate. -/
theorem C1_amended_theorem (cb : List (String × Bound)) (st : MapState) (rows : List QRow)
    (c : String) (h : ∀ row ∈ rows, truthyStr (countryOfRow row) ≠ some c) :
    getDataForCountry (transformData cb st rows).1 c = getDataForCountry st c := by
  unfold transformData getDataForCountry
  exact transformDataGo_dataMap_frame cb rows st 0 c h

/-- C1 (amended) witness: transforming the batch `[rowFR]` leaves the
"us" entry of the index exactly as it was. -/
theorem C1_amended_witness :
    getDataForCountry (transformData sampleCountryBounds mapState1 [rowFR]).1 "us"
      = getDataForCountry mapState1 "us" :=
  C1_amended_theorem sampleCountryBounds mapState1 [rowFR] "us" (by decide)

/-- C2: the claim says every falsy or unknown country code yields an empty
record without an error.  Evaluating the code at the failing input: an
undefined country code makes `countryCode.toLowerCase()` throw a TypeError
before the falsy guard `if (countryCode && ...)` can return the empty
record (empty-string and unknown codes do return `{}`). -/
theorem C2_failing_input_eval :
    getCountryMapData sampleCountryData sampleCountryBounds none
      = .error .typeError := rfl

/-- C3 counterexample: the claim says the lookup never mutates the shared
static table.  Looking up "US" on a pristine table attaches the `bounds`
field to the stored record itself, so the table after the call differs from
the original table. -/
theorem C3_counterexample :
    getCountryMapDataStr sampleCountryData sampleCountryBounds "US"
      = ([("us", { feature := some "us-feature", bounds := some ⟨1, 2, 3, 4⟩ })],
         { feature := some "us-feature", bounds := some ⟨1, 2, 3, 4⟩ })
    ∧ [("us", ({ feature := some "us-feature", bounds := some ⟨1, 2, 3, 4⟩ } : GeoData))]
        ≠ sampleCountryData :=
  ⟨by decide, by decide⟩

/-- C3 (amended): for a truthy code found in the table the lookup writes
`bounds` into the stored record (the returned value is that updated stored
record), leaving every other key unchanged; for a falsy or unknown code the
table is untouched. -/
theorem C3_amended_theorem :
    (∀ (cd : List (String × GeoData)) (cb : List (String × Bound)) (s : String)
        (record : GeoData), s ≠ "" → getKey cd (jsToLowerCase s) = some record →
        getCountryMapDataStr cd cb s =
          (setKey cd (jsToLowerCase s) { record with bounds := getKey cb (jsToLowerCase s) },
           { record with bounds := getKey cb (jsToLowerCase s) }))
    ∧ (∀ cd cb s k, k ≠ jsToLowerCase s →
        getKey (getCountryMapDataStr cd cb s).1 k = getKey cd k)
    ∧ (∀ cd cb s, (s = "" ∨ getKey cd (jsToLowerCase s) = none) →
        (getCountryMapDataStr cd cb s).1 = cd) := by
  refine ⟨?_, ?_, ?_⟩
  · intro cd cb s record hs hrec
    simp [getCountryMapDataStr, if_neg hs, hrec]
  · intro cd cb s k hk
    by_cases hs : s = ""
    · simp [getCountryMapDataStr, hs]
    · simp only [getCountryMapDataStr, if_neg hs]
      cases hrec : getKey cd (jsToLowerCase s) with
      | none => rfl
      | some record =>
        simp only [hrec]
        exact getKey_setKey_ne _ _ _ _ hk
  · intro cd cb s h
    by_cases hs : s = ""
    · simp [getCountryMapDataStr, hs]
    · rcases h with hs' | hrec
      · exact absurd hs' hs
      · simp [getCountryMapDataStr, if_neg hs, hrec]

/-- C3 (amended) witness: the concrete "US" lookup is exactly the
stored-record update described by the amended claim. -/
theorem C3_amended_witness :
    getCountryMapDataStr sampleCountryData sampleCountryBounds "US"
      = (setKey sampleCountryData (jsToLowerCase "US")
           { feature := some "us-feature",
             bounds := getKey sampleCountryBounds (jsToLowerCase "US") },
         { feature := some "us-feature",
           bounds := getKey sampleCountryBounds (jsToLowerCase "US") }) :=
  C3_amended_theorem.1 sampleCountryData sampleCountryBounds "US"
    { feature := some "us-feature" } (by decide) (by decide)

/-- C4 counterexample: the claim says every event-mode link's value equals
the sum of `in_bytes * sample_rate` over exactly the rows sharing its
`(dimensionLeft, dimensionRight)` pair.  The batch `[evRow1, evRow2]` has
two distinct pairs, `("a", "b-c")` and `("a-b", "c")`, which collide on the
dash-concatenated key "a-b-c": the output has a single link, whose value 17
also includes `evRow2`'s contribution, while the sum over the rows sharing
`evRow1`'s pair is only 10. -/
theorem C4_counterexample :
    (transformEventItems [evRow1, evRow2]).2
      = [{ source := "a-left", target := "b-c-right", value := 17 }]
    ∧ (evRow1.left, evRow1.right) ≠ (evRow2.left, evRow2.right)
    ∧ evRow1.in_bytes * evRow1.sample_rate = 10
    ∧ (17 : ℚ) ≠ 10 := by
  refine ⟨?_, by decide, by norm_num [evRow1], by norm_num⟩
  have h1 : "a" ++ "-" ++ "b-c" = "a-b-c" := by decide
  have h2 : "a-b" ++ "-" ++ "c" = "a-b-c" := by decide
  have h3 : "a" ++ "-left" = "a-left" := by decide
  have h4 : "b-c" ++ "-right" = "b-c-right" := by decide
  have h5 : "a-b" ++ "-left" = "a-b-left" := by decide
  have h6 : "c" ++ "-right" = "c-right" := by decide
  norm_num [transformEventItems, eventGo, evRow1, evRow2, leftKeyOf, rightKeyOf, linkKeyOf,
    jsTemplate, jsOrDefault, getKey, setKey, h1, h2, h3, h4, h5, h6]

/-- C4 (amended): every link accumulates the sum of
`in_bytes * sample_rate` over all rows whose dash-concatenated link key
equals that link's key; rows sharing a `(left, right)` pair always share
the key, so they contribute to exactly one link (keys are unique in the
output), but distinct pairs whose concatenations coincide are merged into
that same link.  When no such collision occurs in a batch, each link's
value is exactly the sum over the rows sharing its pair. -/
theorem C4_amended_theorem (items : List EventRow) :
    (∀ k l, getKey (eventGo items [] []).2 k = some l →
       l.value = ((items.filter (fun r => linkKeyOf r == k)).map
         (fun r => r.in_bytes * r.sample_rate)).sum)
    ∧ (∀ r ∈ items, (getKey (eventGo items [] []).2 (linkKeyOf r)).isSome)
    ∧ ((eventGo items [] []).2.map Prod.fst).Nodup := by
  refine ⟨?_, eventGo_links_present items [] [], eventGo_links_nodup items [] [] (by simp)⟩
  intro k l hl
  have hv := eventGo_value items [] [] k
  have h2 : linkBase (eventGo items [] []).2 k = l.value := by simp [linkBase, hl]
  rw [h2] at hv
  simpa [linkBase, getKey] using hv

/-- C4 (amended) witness: on a batch of two rows sharing the pair
`("x", "y")` the single accumulated link carries `10·2 + 5·3 = 35`,
the sum over the rows whose key is "x-y". -/
theorem C4_amended_witness :
    FLink.value ({ source := "x-left", target := "y-right", value := 35 } : FLink)
      = (([evRowX1, evRowX2].filter (fun r => linkKeyOf r == "x-y")).map
          (fun r => r.in_bytes * r.sample_rate)).sum :=
  (C4_amended_theorem [evRowX1, evRowX2]).1 "x-y"
    { source := "x-left", target := "y-right", value := 35 }
    (by
      have h1 : "x" ++ "-" ++ "y" = "x-y" := by decide
      have h2 : "x" ++ "-left" = "x-left" := by decide
      have h3 : "y" ++ "-right" = "y-right" := by decide
      norm_num [eventGo, evRowX1, evRowX2, leftKeyOf, rightKeyOf, linkKeyOf,
        jsTemplate, jsOrDefault, getKey, setKey, h1, h2, h3])

/-- C5: in facet mode each input row produces exactly one link, in order,
carrying that row's `data[0].y` (so identical facet pairs give distinct
parallel links), while node identities are deduplicated: the node id list
has no duplicates and contains the identity of every facet of every row. -/
theorem C5_theorem (rawData : List QRow) (nodes : List FNode) (links : List FLink)
    (h : transformFacetData rawData = .ok (nodes, links)) :
    links.length = rawData.length
    ∧ (∀ (i : ℕ) (r : QRow), rawData[i]? = some r → ∃ f0 f1 d0,
        (facetsOf r)[0]? = some f0 ∧ (facetsOf r)[1]? = some f1 ∧ r.data[0]? = some d0 ∧
        links[i]? = some ({ source := facetKey f0, target := facetKey f1, value := d0.y } : FLink))
    ∧ (nodes.map FNode.id).Nodup
    ∧ (∀ r ∈ rawData, ∀ f, ((facetsOf r)[0]? = some f ∨ (facetsOf r)[1]? = some f) →
        facetKey f ∈ nodes.map FNode.id) := by
  cases hgo : facetGo rawData [] [] with
  | error e =>
    rw [transformFacetData, hgo] at h
    simp [Except.map] at h
  | ok p =>
    obtain ⟨N, L⟩ := p
    rw [transformFacetData, hgo] at h
    simp only [Except.map, Except.ok.injEq, Prod.mk.injEq] at h
    obtain ⟨hN, hL⟩ := h
    subst hN
    subst hL
    obtain ⟨hlen, _, hidx, hnodup, _, hfacet⟩ := facetGo_ok_spec rawData [] [] N L hgo
    have hids : (N.map (fun node => ({ id := node, name := jsSplitHead node } : FNode))).map
        FNode.id = N := by
      simp [List.map_map, Function.comp_def]
    refine ⟨by simpa using hlen, ?_, ?_, ?_⟩
    · intro i r hir
      simpa using hidx i r hir
    · rw [hids]
      exact hnodup List.nodup_nil
    · intro r hr f hf
      rw [hids]
      exact hfacet r hr f hf

/-- C5 witness: two identical facet rows produce two links (one per row). -/
theorem C5_witness :
    ([{ source := "a||ip", target := "b||country", value := 5 },
      { source := "a||ip", target := "b||country", value := 5 }] : List FLink).length
      = ([facetRowW, facetRowW] : List QRow).length :=
  (C5_theorem [facetRowW, facetRowW]
    [{ id := "a||ip", name := "a" }, { id := "b||country", name := "b" }]
    [{ source := "a||ip", target := "b||country", value := 5 },
     { source := "a||ip", target := "b||country", value := 5 }] rfl).1

/-- C6: the magnitude formatter tries prefixes largest-first with the
strict `> scaleMax` threshold: for 1500000 with suffix "B" the prefix "M"
fails (1.5 is not > 5), "K" passes (1500 > 5), and the formatted result is
"1500 KB". -/
theorem C6_theorem :
    formatBytesGreek (JsVal.num 1500000) "B" none = "1500 KB"
    ∧ greekPrefix [some 1500000] (some 5) = "K" :=
  ⟨fbg_eval, greekPrefix_1500000 (some 5) rfl⟩

/-- C7: when no feature carries a bound the reducer returns `undefined`;
otherwise the resulting bound encloses every input bound (result min ≤
input min, result max ≥ input max, on both axes). -/
theorem C7_theorem :
    (∀ data : List GeoData, (∀ item ∈ data, item.bounds = none) → getMapBounds data = none)
    ∧ (∀ (data : List GeoData) (r : Bound), getMapBounds data = some r →
        ∀ item ∈ data, ∀ b : Bound, item.bounds = some b → encloses r b) := by
  constructor
  · intro data hall
    have hfm : data.filterMap GeoData.bounds = [] := List.filterMap_eq_nil_iff.mpr hall
    simp [getMapBounds, hfm]
  · intro data r h item hitem b hb
    have hmem : b ∈ data.filterMap GeoData.bounds := List.mem_filterMap.mpr ⟨item, hitem, hb⟩
    unfold getMapBounds at h
    cases hl : data.filterMap GeoData.bounds with
    | nil => rw [hl] at h; simp at h
    | cons b0 rest =>
      rw [hl] at h
      rw [hl] at hmem
      simp only [] at h
      obtain ⟨h1, h2⟩ := encloses_foldB rest b0
      have henc : encloses (rest.foldl foldB b0) b := by
        rcases List.mem_cons.mp hmem with rfl | hmem'
        · exact h1
        · exact h2 b hmem'
      obtain ⟨ea, eb, ec, ed⟩ := henc
      split at h
      · obtain rfl := Option.some_inj.mp h
        unfold encloses
        refine ⟨?_, ?_, ?_, ?_⟩ <;> dsimp only <;> linarith
      · obtain rfl := Option.some_inj.mp h
        unfold encloses
        exact ⟨ea, eb, ec, ed⟩

/-- C7 witness: a feature without bounds yields `undefined`, and the
reduced bound of two concrete features encloses the second input bound. -/
theorem C7_witness :
    getMapBounds [({ bounds := none } : GeoData)] = none
    ∧ encloses ⟨0, 0, 2, 2⟩ ⟨1, 1, 2, 2⟩ :=
  ⟨C7_theorem.1 [{ bounds := none }] (by decide),
   C7_theorem.2 [{ bounds := some ⟨0, 0, 1, 1⟩ }, { bounds := some ⟨1, 1, 2, 2⟩ }]
     ⟨0, 0, 2, 2⟩ (by decide) { bounds := some ⟨1, 1, 2, 2⟩ } (by decide)
     ⟨1, 1, 2, 2⟩ (by decide)⟩

/-- C8: the degenerate-case correction fires exactly when both axes
collapse: the single point bound `{5,5,5,5}` is expanded to `{4,4,6,6}`,
while any single bound collapsed on at most one axis is returned
unchanged. -/
theorem C8_theorem :
    getMapBounds [({ bounds := some ⟨5, 5, 5, 5⟩ } : GeoData)] = some ⟨4, 4, 6, 6⟩
    ∧ ∀ b : Bound, ¬(b.maxLat = b.minLat ∧ b.maxLon = b.minLon) →
        getMapBounds [({ bounds := some b } : GeoData)] = some b := by
  constructor
  · norm_num [getMapBounds, foldB, List.filterMap_cons, List.filterMap_nil]
  · intro b hb
    simp only [getMapBounds, List.filterMap_cons, List.filterMap_nil, List.foldl_nil]
    rw [if_neg hb]

/-- C8 witness: a bound collapsed only on the latitude axis is returned
without expansion. -/
theorem C8_witness :
    getMapBounds [({ bounds := some ⟨0, 5, 3, 5⟩ } : GeoData)] = some ⟨0, 5, 3, 5⟩ :=
  C8_theorem.2 ⟨0, 5, 3, 5⟩ (by decide)

/-- C9: the event-mode left and right node namespaces are disjoint: no
`"<value>-left"` id ever equals a `"<value'>-right"` id, and every row of a
batch yields a left-endpoint node and a right-endpoint node with distinct
ids (never collapsed), even when the raw values coincide. -/
theorem C9_theorem :
    (∀ vl vr : Option String, leftKeyOf vl ≠ rightKeyOf vr)
    ∧ (∀ (items : List EventRow), ∀ r ∈ items,
        ∃ nl ∈ (transformEventItems items).1, ∃ nr ∈ (transformEventItems items).1,
          nl.id = leftKeyOf r.left ∧ nr.id = rightKeyOf r.right ∧ nl ≠ nr) := by
  have hdisj : ∀ vl vr : Option String, leftKeyOf vl ≠ rightKeyOf vr := by
    intro vl vr
    exact append_left_ne_append_right (jsTemplate vl) (jsTemplate vr)
  refine ⟨hdisj, ?_⟩
  intro items r hr
  obtain ⟨hL, hR⟩ := eventGo_nodes_present items [] [] r hr
  obtain ⟨nl, hnl⟩ := Option.isSome_iff_exists.mp hL
  obtain ⟨nr, hnr⟩ := Option.isSome_iff_exists.mp hR
  have hid : ∀ k v, getKey (eventGo items [] []).1 k = some v → v.id = k :=
    eventGo_nodes_id items [] [] (by intro k v hkv; simp [getKey] at hkv)
  have hnlid := hid _ nl hnl
  have hnrid := hid _ nr hnr
  refine ⟨nl, ?_, nr, ?_, hnlid, hnrid, ?_⟩
  · simp only [transformEventItems]
    exact List.mem_map.mpr ⟨(leftKeyOf r.left, nl), getKey_some_mem _ _ _ hnl, rfl⟩
  · simp only [transformEventItems]
    exact List.mem_map.mpr ⟨(rightKeyOf r.right, nr), getKey_some_mem _ _ _ hnr, rfl⟩
  · intro hEq
    apply hdisj r.left r.right
    rw [← hnlid, ← hnrid, hEq]

/-- C9 witness: a row whose left and right raw values are both "z" still
produces two distinct nodes, "z-left" and "z-right". -/
theorem C9_witness :
    ∃ nl ∈ (transformEventItems [evRowW]).1, ∃ nr ∈ (transformEventItems [evRowW]).1,
      nl.id = leftKeyOf evRowW.left ∧ nr.id = rightKeyOf evRowW.right ∧ nl ≠ nr :=
  C9_theorem.2 [evRowW] evRowW (by decide)

/-- C10: the event-mode link key is the plain dash-concatenation of the two
dimension values, so the distinct pairs `("a", "b-c")` and `("a-b", "c")`
collide on "a-b-c": the output has exactly one link, with source/target
taken from the first row and value `3·2 + 5·2 = 16`, the sum over both
rows. -/
theorem C10_theorem :
    transformEventData [{ data := [evRowA, evRowB] }]
      = .ok ([{ id := "a-left", name := "a" }, { id := "b-c-right", name := "b-c" },
              { id := "a-b-left", name := "a-b" }, { id := "c-right", name := "c" }],
             [{ source := "a-left", target := "b-c-right", value := 16 }])
    ∧ evRowA.in_bytes * evRowA.sample_rate + evRowB.in_bytes * evRowB.sample_rate = 16 := by
  constructor
  · have h1 : "a" ++ "-" ++ "b-c" = "a-b-c" := by decide
    have h2 : "a-b" ++ "-" ++ "c" = "a-b-c" := by decide
    have h3 : "a" ++ "-left" = "a-left" := by decide
    have h4 : "b-c" ++ "-right" = "b-c-right" := by decide
    have h5 : "a-b" ++ "-left" = "a-b-left" := by decide
    have h6 : "c" ++ "-right" = "c-right" := by decide
    norm_num [transformEventData, transformEventItems, eventGo, evRowA, evRowB, leftKeyOf,
      rightKeyOf, linkKeyOf, jsTemplate, jsOrDefault, getKey, setKey, h1, h2, h3, h4, h5, h6]
    decide
  · norm_num [evRowA, evRowB]
